import Mathlib

/-!
Verification of the reflopt declarative command-line option parser
(`_includes/code/reflection/reflexpr/reflopt.hpp` and its cpp3k twin).

The embedding models a configuration structure as a list of declared
members; members created by the REFLOPT_OPTION macro carry the option
metadata (identifier, flag, optional short flag, help text) of the
generated `reflopt::Option` tag member together with the value type of
the generated data member.  A configuration instance is the list of the
option fields' values, in declaration order; the "member pointer" of a
field is its index in that list.  `boost::lexical_cast` over the
character range `[value, value + strnlen(value, max_value_length))` is
modelled per supported value type (string, int via stream extraction
with int range, bool via stream extraction of 0/1).  A thrown
`bad_lexical_cast` carries only source/target type information, modelled
by the target value type.  The out-of-bounds read `argv[i + 1]` that the
loop performs when a registered flag is the last token (`i + 1 = argc`)
is undefined behaviour in the source and is rendered as the distinct
outcome `ParseResult.oobRead`.
-/

namespace reflopt

/-- Semantic value types supported by the coercion collaborator. -/
inductive FieldType
| str
| int
| bool
deriving DecidableEq, Repr

/-- A runtime value of one of the supported field types. -/
inductive Value
| str (s : String)
| int (z : Int)
| bool (b : Bool)
deriving DecidableEq, Repr

/-- One field declared with REFLOPT_OPTION: the metadata held by the
generated `reflopt::Option` tag member, plus the value type of the data
member it annotates and the value that default-initialization of the
enclosing struct gives that data member. -/
structure OptionField where
  name : String
  ty : FieldType
  dflt : Value
  flag : String
  short_flag : String
  help : String
deriving DecidableEq, Repr

/-- A declared member of the configuration struct: either a plain data
member (no option metadata; ignored by the parser machinery) or an
option field introduced by REFLOPT_OPTION. -/
inductive Member
| plainField (name : String) (ty : FieldType)
| optionField (f : OptionField)
deriving DecidableEq, Repr

/-- A configuration structure declaration: its members in order. -/
abbrev StructDecl := List Member

def isOptionField : Member → Option OptionField
| .optionField f => some f
| .plainField _ _ => none

/-- The members that specialize `Option`, i.e. the result of the
`hana::filter` over the struct's data members in both implementations. -/
def filtered (s : StructDecl) : List OptionField :=
  s.filterMap isOptionField

/-- `static const size_t max_value_length = 128;` -/
def max_value_length : Nat := 128

/-- The character range handed to `boost::lexical_cast`: the source
string cut at `strnlen(value, max_value_length)` characters. -/
def strnlen_take (v : String) : String :=
  ⟨v.data.take max_value_length⟩

/-- Value of an all-digit character sequence; `none` when the sequence
is empty or holds a non-digit (stream extraction failure). -/
def digitsVal (cs : List Char) : Option Nat :=
  if cs = [] then none else
  cs.foldl
    (fun acc c =>
      match acc with
      | none => none
      | some n => if c.isDigit then some (10 * n + (c.toNat - 48)) else none)
    (some 0)

def int_min : Int := -2147483648
def int_max : Int := 2147483647

/-- Stream extraction of an `int` from a full character range: optional
sign, then digits, the whole range consumed, result within int range. -/
def read_int (cs : List Char) : Option Int :=
  match cs with
  | '-' :: rest =>
    (digitsVal rest).bind fun n =>
      if int_min ≤ -(n : Int) then some (-(n : Int)) else none
  | '+' :: rest =>
    (digitsVal rest).bind fun n =>
      if (n : Int) ≤ int_max then some (n : Int) else none
  | _ =>
    (digitsVal cs).bind fun n =>
      if (n : Int) ≤ int_max then some (n : Int) else none

/-- The exception thrown by `boost::lexical_cast` on conversion failure.
`boost::bad_lexical_cast` records only the source and target
`std::type_info`; the source type is the same character-range type at
every call site, so the target value type is the entire information
content. -/
inductive LexErr
| bad_lexical_cast (target : FieldType)
deriving DecidableEq, Repr

/-- `boost::lexical_cast<MemberType>(value, strnlen(value, max_value_length))`
for each supported member type, on an already-truncated source string. -/
def lexical_cast (ty : FieldType) (v : String) : Except LexErr Value :=
  match ty with
  | .str => .ok (.str v)
  | .int =>
    match read_int v.data with
    | some z => .ok (.int z)
    | none => .error (.bad_lexical_cast .int)
  | .bool =>
    match read_int v.data with
    | some 0 => .ok (.bool false)
    | some 1 => .ok (.bool true)
    | _ => .error (.bad_lexical_cast .bool)

/-- The configuration instance produced by `OptionsStruct options;`:
each option field at the value default-initialization gives it. -/
def defaults (s : StructDecl) : List Value :=
  (filtered s).map (·.dflt)

/-- One entry of the compile-time prefix map: a flag string key and the
metainfo of the member it selects (its index among the option fields,
which yields the member pointer, and its member type). -/
structure RegEntry where
  key : String
  idx : Nat
  ty : FieldType
deriving DecidableEq, Repr

/-- Outcome of a `parse` call.  `ok` is the populated struct returned by
value; `unknownFlag` is the `std::experimental::nullopt` return;
`thrown` is a propagating `bad_lexical_cast` exception; `oobRead` is the
undefined behaviour of reading `argv[argc]` (and then `strnlen` on it)
when a registered flag has no paired value token. -/
inductive ParseResult
| ok (c : List Value)
| unknownFlag
| thrown (e : LexErr)
| oobRead
deriving DecidableEq, Repr

end reflopt

namespace reflopt

namespace reflexpr

/-- `hana::insert` of a `(flag, metainfo)` pair into the accumulating
`hana::map`: a no-op when the key is already present. -/
def insertPM (m : List RegEntry) (k : String) (i : Nat) (t : FieldType) : List RegEntry :=
  if m.any (fun e => e.key == k) then m else m ++ [⟨k, i, t⟩]

/-- `collect_flags`: register the field's primary flag, then, when the
short flag string is non-empty, the short flag, both pointing at the
metainfo obtained through `get_metainfo_for` from the field's
identifier. -/
def collect_flags (m : List RegEntry) (i : Nat) (f : OptionField) : List RegEntry :=
  let result := insertPM m f.flag i f.ty
  if f.short_flag ≠ "" then insertPM result f.short_flag i f.ty else result

/-- The `hana::fold` of `collect_flags` over the filtered option fields,
carrying each field's index (the metainfo resolved from its
identifier). -/
def collectFrom : Nat → List OptionField → List RegEntry → List RegEntry
| _, [], m => m
| i, f :: rest, m => collectFrom (i + 1) rest (collect_flags m i f)

/-- `OptionsMap::prefix_map`, built by `make_prefix_map::helper()`. -/
def prefix_map (s : StructDecl) : List RegEntry :=
  collectFrom 0 (filtered s) []

/-- `OptionsMap::contains`: fold over the keys of the prefix map,
or-ing a string comparison against the runtime prefix. -/
def contains (s : StructDecl) (pfx : String) : Bool :=
  ((prefix_map s).map (·.key)).foldl (fun x k => x || (k == pfx)) false

/-- The `hana::for_each` inside `OptionsMap::set`: visit every key; on a
key equal to the prefix, assign the lexically-cast value through the
member pointer, a cast failure throwing out of the whole traversal. -/
def setEntries : List RegEntry → List Value → String → String → Except LexErr (List Value)
| [], opts, _, _ => .ok opts
| e :: rest, opts, pfx, v =>
  if e.key == pfx then
    match lexical_cast e.ty (strnlen_take v) with
    | .ok w => setEntries rest (opts.set e.idx w) pfx v
    | .error err => .error err
  else setEntries rest opts pfx v

/-- `OptionsMap::set`. -/
def set (s : StructDecl) (opts : List Value) (pfx v : String) : Except LexErr (List Value) :=
  setEntries (prefix_map s) opts pfx v

/-- The `for (int i = 1; i < argc; i += 2)` loop of `parse`, acting on
the argument tokens after the program name.  The single-token case is a
registered flag with `i + 1 = argc`: the source then reads `argv[argc]`
and hands it to `strnlen`, which is undefined behaviour. -/
def parseLoop (s : StructDecl) : List Value → List String → ParseResult
| opts, [] => .ok opts
| _, [flag] =>
  if contains s flag then .oobRead else .unknownFlag
| opts, flag :: v :: rest =>
  if contains s flag then
    match set s opts flag v with
    | .ok opts2 => parseLoop s opts2 rest
    | .error err => .thrown err
  else .unknownFlag

/-- `reflopt::parse` from the reflexpr implementation.  `argv` includes
the program name at position 0.  Instantiating `OptionsMap` fires its
two static asserts; a struct declaring no option fields therefore fails
to build, rendered as `none`. -/
def parse (s : StructDecl) (argv : List String) : Option ParseResult :=
  if filtered s = [] then none
  else if prefix_map s = [] then none
  else some (parseLoop s (defaults s) (argv.drop 1))

end reflexpr

namespace cpp3k

/-- `hana::insert` of a `(flag, metainfo)` pair into the accumulating
`hana::map`: a no-op when the key is already present. -/
def insertPM (m : List RegEntry) (k : String) (i : Nat) (t : FieldType) : List RegEntry :=
  if m.any (fun e => e.key == k) then m else m ++ [⟨k, i, t⟩]

/-- `collect_flags` of the cpp3k implementation: identical registration
logic over `$T.member_variables()` metainfo values. -/
def collect_flags (m : List RegEntry) (i : Nat) (f : OptionField) : List RegEntry :=
  let result := insertPM m f.flag i f.ty
  if f.short_flag ≠ "" then insertPM result f.short_flag i f.ty else result

/-- The `hana::fold` of `collect_flags` over `filtered`, carrying each
field's index obtained through `get_matching_index`. -/
def collectFrom : Nat → List OptionField → List RegEntry → List RegEntry
| _, [], m => m
| i, f :: rest, m => collectFrom (i + 1) rest (collect_flags m i f)

/-- `OptionsMap::prefix_map` of the cpp3k implementation, folded at
class scope from the `filtered` member tuple. -/
def prefix_map (s : StructDecl) : List RegEntry :=
  collectFrom 0 (filtered s) []

/-- `OptionsMap::contains` (token-identical to the reflexpr file). -/
def contains (s : StructDecl) (pfx : String) : Bool :=
  ((prefix_map s).map (·.key)).foldl (fun x k => x || (k == pfx)) false

/-- The `hana::for_each` inside the cpp3k `OptionsMap::set`. -/
def setEntries : List RegEntry → List Value → String → String → Except LexErr (List Value)
| [], opts, _, _ => .ok opts
| e :: rest, opts, pfx, v =>
  if e.key == pfx then
    match lexical_cast e.ty (strnlen_take v) with
    | .ok w => setEntries rest (opts.set e.idx w) pfx v
    | .error err => .error err
  else setEntries rest opts pfx v

/-- `OptionsMap::set` of the cpp3k implementation. -/
def set (s : StructDecl) (opts : List Value) (pfx v : String) : Except LexErr (List Value) :=
  setEntries (prefix_map s) opts pfx v

/-- The argument loop of the cpp3k `parse` (token-identical source). -/
def parseLoop (s : StructDecl) : List Value → List String → ParseResult
| opts, [] => .ok opts
| _, [flag] =>
  if contains s flag then .oobRead else .unknownFlag
| opts, flag :: v :: rest =>
  if contains s flag then
    match set s opts flag v with
    | .ok opts2 => parseLoop s opts2 rest
    | .error err => .thrown err
  else .unknownFlag

/-- `reflopt::parse` from the cpp3k implementation. -/
def parse (s : StructDecl) (argv : List String) : Option ParseResult :=
  if filtered s = [] then none
  else if prefix_map s = [] then none
  else some (parseLoop s (defaults s) (argv.drop 1))

end cpp3k

/-! Specification-side helpers, stated over the reflexpr definitions. -/

/-- Boolean validity of an `Except` result. -/
def isOkE {α : Type} : Except LexErr α → Bool
| .ok _ => true
| .error _ => false

/-- Registry lookup: the unique prefix-map entry carrying a flag. -/
def findEntry (s : StructDecl) (k : String) : Option RegEntry :=
  (reflexpr.prefix_map s).find? (fun e => e.key == k)

/-- A flag/value pair whose flag is registered and whose (truncated)
value coerces to the selected field's type. -/
def goodPair (s : StructDecl) (p : String × String) : Bool :=
  match findEntry s p.1 with
  | some e => isOkE (lexical_cast e.ty (strnlen_take p.2))
  | none => false

/-- The coerced value of a pair (junk when the pair is not good). -/
def castVal (s : StructDecl) (p : String × String) : Value :=
  match findEntry s p.1 with
  | some e =>
    match lexical_cast e.ty (strnlen_take p.2) with
    | .ok w => w
    | .error _ => .str ""
  | none => .str ""

/-- Whether a pair's flag resolves to option field number `j`. -/
def targetsField (s : StructDecl) (j : Nat) (p : String × String) : Bool :=
  match findEntry s p.1 with
  | some e => e.idx == j
  | none => false

/-- The field assignment performed by a single flag/value pair. -/
def applyOne (s : StructDecl) (c : List Value) (p : String × String) : List Value :=
  match findEntry s p.1 with
  | some e =>
    match lexical_cast e.ty (strnlen_take p.2) with
    | .ok w => c.set e.idx w
    | .error _ => c
  | none => c

/-- Sequential field assignment of a list of flag/value pairs. -/
def applyGood (s : StructDecl) (c : List Value) (pairs : List (String × String)) : List Value :=
  pairs.foldl (applyOne s) c

/-- Flatten flag/value pairs into the flat token sequence. -/
def flatPairs : List (String × String) → List String
| [] => []
| p :: rest => p.1 :: p.2 :: flatPairs rest

/-- The registration a single field contributes for flag `k`: its
primary flag first, then its short flag when non-empty. -/
def fieldDecl (k : String) (i : Nat) (f : OptionField) : Option RegEntry :=
  Option.or (if f.flag = k then some ⟨k, i, f.ty⟩ else none)
    (if f.short_flag ≠ "" then
      (if f.short_flag = k then some ⟨k, i, f.ty⟩ else none)
    else none)

/-- The first field, in declaration order, registering flag `k`. -/
def firstDeclFrom (k : String) : Nat → List OptionField → Option RegEntry
| _, [] => none
| i, f :: rest => Option.or (fieldDecl k i f) (firstDeclFrom k (i + 1) rest)

/-- The earliest registration of flag `k` in a structure declaration. -/
def firstDecl (s : StructDecl) (k : String) : Option RegEntry :=
  firstDeclFrom k 0 (filtered s)

/-! Concrete structure declarations used as witnesses. -/

/-- The `ProgramOptions` struct of the blog post: `filename` via
`--filename`; `iterations` via `--iterations` and `-i`; `help` via
`--help` and `-h`. -/
def ProgramOptions : StructDecl :=
  [Member.optionField ⟨"filename", .str, .str "", "--filename", "", ""⟩,
   Member.optionField ⟨"iterations", .int, .int 0, "--iterations", "-i",
     "Number of times to run the algorithm."⟩,
   Member.optionField ⟨"help", .bool, .bool false, "--help", "-h",
     "Print help and exit."⟩]

/-- A struct declaring only a plain data member and no options. -/
def NoOptions : StructDecl := [Member.plainField "x" .int]

/-- Two option fields claiming the identical flag string. -/
def DupFlags : StructDecl :=
  [Member.optionField ⟨"alpha", .int, .int 0, "-x", "", ""⟩,
   Member.optionField ⟨"beta", .int, .int 0, "-x", "", ""⟩]

/-- Two distinct int option fields with distinct flags. -/
def TwoInts : StructDecl :=
  [Member.optionField ⟨"alpha", .int, .int 0, "-a", "", ""⟩,
   Member.optionField ⟨"beta", .int, .int 0, "-b", "", ""⟩]

end reflopt

namespace reflopt

/-- Folding an or of key comparisons is `List.any`. -/
theorem foldl_or_eq (l : List String) (b : Bool) (pfx : String) :
    l.foldl (fun x k => x || (k == pfx)) b = (b || l.any (fun k => k == pfx)) := by
  induction l generalizing b with
  | nil => simp
  | cons h t ih => simp [ih, Bool.or_assoc]

theorem any_map_key (l : List RegEntry) (pfx : String) :
    (l.map (·.key)).any (fun k => k == pfx) = l.any (fun e => e.key == pfx) := by
  induction l with
  | nil => rfl
  | cons e t ih => simp [ih]

/-- A successful key search returns an entry carrying that key. -/
theorem find?_some_key {l : List RegEntry} {pfx : String} {e : RegEntry}
    (h : l.find? (fun x => x.key == pfx) = some e) : e.key = pfx := by
  have hp := List.find?_some h
  simpa using hp

/-- `contains` tests membership of the prefix among the map's keys. -/
theorem contains_eq_any (s : StructDecl) (pfx : String) :
    reflexpr.contains s pfx = (reflexpr.prefix_map s).any (fun e => e.key == pfx) := by
  rw [reflexpr.contains, foldl_or_eq, Bool.false_or, any_map_key]

/-- `contains` agrees with resolvability through `findEntry`. -/
theorem contains_eq_findEntry (s : StructDecl) (pfx : String) :
    reflexpr.contains s pfx = (findEntry s pfx).isSome := by
  rw [contains_eq_any]
  unfold findEntry
  rcases h : (reflexpr.prefix_map s).find? (fun e => e.key == pfx) with _ | e
  · simp only [h, Option.isSome_none]
    rw [List.any_eq_false]
    intro x hx
    exact List.find?_eq_none.mp h x hx
  · simp only [h, Option.isSome_some]
    rw [List.any_eq_true]
    exact ⟨e, List.mem_of_find?_eq_some h, by simp [find?_some_key h]⟩

theorem mem_insertPM {m : List RegEntry} {k : String} {i : Nat} {t : FieldType} {e : RegEntry}
    (h : e ∈ reflexpr.insertPM m k i t) : e ∈ m ∨ e = ⟨k, i, t⟩ := by
  unfold reflexpr.insertPM at h
  split at h
  · exact Or.inl h
  · rcases List.mem_append.mp h with h1 | h1
    · exact Or.inl h1
    · exact Or.inr (by simpa using h1)

theorem insertPM_nodup {m : List RegEntry} {k : String} {i : Nat} {t : FieldType}
    (h : (m.map (·.key)).Nodup) : ((reflexpr.insertPM m k i t).map (·.key)).Nodup := by
  unfold reflexpr.insertPM
  split
  · exact h
  · rename_i hany
    rw [List.map_append, List.nodup_append]
    refine ⟨h, by simp, ?_⟩
    intro a ha hb
    simp only [List.map_cons, List.map_nil, List.mem_singleton] at hb
    subst hb
    rcases List.mem_map.mp ha with ⟨x, hx, hxk⟩
    exact hany (List.any_eq_true.mpr ⟨x, hx, by simp [hxk]⟩)

theorem collect_flags_nodup {m : List RegEntry} {i : Nat} {f : OptionField}
    (h : (m.map (·.key)).Nodup) : ((reflexpr.collect_flags m i f).map (·.key)).Nodup := by
  simp only [reflexpr.collect_flags]
  split
  · exact insertPM_nodup (insertPM_nodup h)
  · exact insertPM_nodup h

theorem collectFrom_nodup : ∀ (fields : List OptionField) (i : Nat) (m : List RegEntry),
    (m.map (·.key)).Nodup → ((reflexpr.collectFrom i fields m).map (·.key)).Nodup
  | [], _, _, h => h
  | f :: rest, i, m, h =>
    collectFrom_nodup rest (i + 1) _ (collect_flags_nodup h)

/-- The keys of the prefix map are pairwise distinct. -/
theorem prefix_map_nodup (s : StructDecl) : ((reflexpr.prefix_map s).map (·.key)).Nodup :=
  collectFrom_nodup (filtered s) 0 [] (by simp)

theorem insertPM_idx {m : List RegEntry} {k : String} {i : Nat} {t : FieldType} {n : Nat}
    (hm : ∀ e ∈ m, e.idx < n) (hi : i < n) :
    ∀ e ∈ reflexpr.insertPM m k i t, e.idx < n := by
  intro e he
  rcases mem_insertPM he with h | h
  · exact hm e h
  · subst h; exact hi

theorem collect_flags_idx {m : List RegEntry} {i : Nat} {f : OptionField} {n : Nat}
    (hm : ∀ e ∈ m, e.idx < n) (hi : i < n) :
    ∀ e ∈ reflexpr.collect_flags m i f, e.idx < n := by
  simp only [reflexpr.collect_flags]
  split
  · exact insertPM_idx (insertPM_idx hm hi) hi
  · exact insertPM_idx hm hi

theorem collectFrom_idx : ∀ (fields : List OptionField) (i : Nat) (m : List RegEntry),
    (∀ e ∈ m, e.idx < i) → ∀ e ∈ reflexpr.collectFrom i fields m, e.idx < i + fields.length
  | [], i, m, hm => by
    intro e he
    exact Nat.lt_of_lt_of_le (hm e he) (Nat.le_add_right i 0)
  | f :: rest, i, m, hm => by
    intro e he
    have step : ∀ x ∈ reflexpr.collect_flags m i f, x.idx < i + 1 :=
      collect_flags_idx (fun x hx => Nat.lt_succ_of_lt (hm x hx)) (Nat.lt_succ_self i)
    have h2 := collectFrom_idx rest (i + 1) _ step e he
    simp only [List.length_cons]
    omega

/-- Every prefix-map entry points inside the option-field list. -/
theorem prefix_map_idx (s : StructDecl) :
    ∀ e ∈ reflexpr.prefix_map s, e.idx < (filtered s).length := by
  intro e he
  have := collectFrom_idx (filtered s) 0 [] (by simp) e he
  simpa using this

theorem insertPM_len {m : List RegEntry} {k : String} {i : Nat} {t : FieldType} :
    m.length ≤ (reflexpr.insertPM m k i t).length := by
  unfold reflexpr.insertPM
  split
  · exact Nat.le_refl _
  · simp

theorem collect_flags_len {m : List RegEntry} {i : Nat} {f : OptionField} :
    m.length ≤ (reflexpr.collect_flags m i f).length := by
  simp only [reflexpr.collect_flags]
  split
  · exact Nat.le_trans insertPM_len insertPM_len
  · exact insertPM_len

theorem collectFrom_len : ∀ (fields : List OptionField) (i : Nat) (m : List RegEntry),
    m.length ≤ (reflexpr.collectFrom i fields m).length
  | [], _, _ => Nat.le_refl _
  | f :: rest, i, m => Nat.le_trans collect_flags_len (collectFrom_len rest (i + 1) _)

/-- A structure with at least one option field yields at least one
prefix-map entry. -/
theorem prefix_map_len (s : StructDecl) (h : filtered s ≠ []) :
    1 ≤ (reflexpr.prefix_map s).length := by
  rcases hf : filtered s with _ | ⟨f, rest⟩
  · exact absurd hf h
  · unfold reflexpr.prefix_map
    rw [hf]
    have h1 : 1 ≤ (reflexpr.collect_flags [] 0 f).length := by
      have hins : 1 ≤ (reflexpr.insertPM [] f.flag 0 f.ty).length := by
        simp [reflexpr.insertPM]
      simp only [reflexpr.collect_flags]
      split
      · exact Nat.le_trans hins insertPM_len
      · exact hins
    rw [show reflexpr.collectFrom 0 (f :: rest) []
        = reflexpr.collectFrom 1 rest (reflexpr.collect_flags [] 0 f) from rfl]
    exact Nat.le_trans h1 (collectFrom_len rest 1 _)

theorem prefix_map_ne_nil {s : StructDecl} (h : filtered s ≠ []) :
    reflexpr.prefix_map s ≠ [] := by
  intro hnil
  have := prefix_map_len s h
  rw [hnil] at this
  simp at this

end reflopt

namespace reflopt

/-- `List.find?` distributes over append as a first-some choice. -/
theorem find?_append_or (l₁ l₂ : List RegEntry) (p : RegEntry → Bool) :
    (l₁ ++ l₂).find? p = Option.or (l₁.find? p) (l₂.find? p) :=
  List.find?_append ..

theorem find?_insertPM (m : List RegEntry) (kk : String) (i : Nat) (t : FieldType) (k : String) :
    (reflexpr.insertPM m kk i t).find? (fun e => e.key == k) =
      Option.or (m.find? (fun e => e.key == k)) (if kk = k then some ⟨kk, i, t⟩ else none) := by
  unfold reflexpr.insertPM
  split
  · rename_i hany
    rcases hf : m.find? (fun e => e.key == k) with _ | e
    · have hno := List.find?_eq_none.mp hf
      have hkk : ¬ kk = k := by
        intro hEq
        subst hEq
        rcases List.any_eq_true.mp hany with ⟨x, hx, hxk⟩
        exact hno x hx hxk
      rw [hf, Option.none_or, if_neg hkk]
    · rw [hf]
      rfl
  · rw [find?_append_or]
    congr 1
    by_cases h : kk = k
    · subst h
      simp [List.find?_cons]
    · simp [List.find?_cons, h]

theorem find?_collect (m : List RegEntry) (i : Nat) (f : OptionField) (k : String) :
    (reflexpr.collect_flags m i f).find? (fun e => e.key == k) =
      Option.or (m.find? (fun e => e.key == k)) (fieldDecl k i f) := by
  simp only [reflexpr.collect_flags]
  split
  · rename_i hshort
    rw [find?_insertPM, find?_insertPM, Option.or_assoc]
    unfold fieldDecl
    rw [if_pos hshort]
    by_cases h1 : f.flag = k
    · by_cases h2 : f.short_flag = k
      · rw [if_pos h1, if_pos h1, if_pos h2, if_pos h2, h1, h2]
      · rw [if_pos h1, if_pos h1, if_neg h2, if_neg h2, h1]
    · by_cases h2 : f.short_flag = k
      · rw [if_neg h1, if_neg h1, if_pos h2, if_pos h2, h2]
      · rw [if_neg h1, if_neg h1, if_neg h2, if_neg h2]
  · rename_i hshort
    rw [find?_insertPM]
    unfold fieldDecl
    rw [if_neg hshort, Option.or_none]
    by_cases h1 : f.flag = k
    · rw [if_pos h1, if_pos h1, h1]
    · rw [if_neg h1, if_neg h1]

theorem find?_collectFrom (k : String) : ∀ (fields : List OptionField) (i : Nat) (m : List RegEntry),
    (reflexpr.collectFrom i fields m).find? (fun e => e.key == k) =
      Option.or (m.find? (fun e => e.key == k)) (firstDeclFrom k i fields)
  | [], i, m => by
    rw [show reflexpr.collectFrom i [] m = m from rfl]
    rw [show firstDeclFrom k i [] = none from rfl, Option.or_none]
  | f :: rest, i, m => by
    rw [show reflexpr.collectFrom i (f :: rest) m
        = reflexpr.collectFrom (i + 1) rest (reflexpr.collect_flags m i f) from rfl]
    rw [find?_collectFrom k rest (i + 1) _, find?_collect, Option.or_assoc]
    rfl

/-- Flag resolution returns the registration of the first field, in
declaration order, claiming the flag: later duplicate declarations are
silently ignored by `hana::insert`. -/
theorem findEntry_eq_firstDecl (s : StructDecl) (k : String) :
    findEntry s k = firstDecl s k := by
  unfold findEntry firstDecl reflexpr.prefix_map
  rw [find?_collectFrom k (filtered s) 0 []]
  rfl

theorem setEntries_nomatch : ∀ (l : List RegEntry) (opts : List Value) (pfx v : String),
    (∀ e ∈ l, ¬ e.key = pfx) → reflexpr.setEntries l opts pfx v = .ok opts
  | [], _, _, _, _ => rfl
  | e :: rest, opts, pfx, v, h => by
    have hk : (e.key == pfx) = false := by
      simpa using h e (List.mem_cons_self e rest)
    unfold reflexpr.setEntries
    rw [hk, if_neg (by simp)]
    exact setEntries_nomatch rest opts pfx v (fun x hx => h x (List.mem_cons_of_mem e hx))

theorem setEntries_found : ∀ (l : List RegEntry) (opts : List Value) (pfx v : String) (e : RegEntry),
    (l.map (·.key)).Nodup → l.find? (fun x => x.key == pfx) = some e →
    reflexpr.setEntries l opts pfx v =
      (match lexical_cast e.ty (strnlen_take v) with
       | .ok w => .ok (opts.set e.idx w)
       | .error err => .error err)
  | [], _, _, _, _, _, hf => by simp at hf
  | e₀ :: rest, opts, pfx, v, e, hnd, hf => by
    by_cases hk : e₀.key = pfx
    · have he : e = e₀ := by
        rw [List.find?_cons_of_pos _ (by simp [hk])] at hf
        exact (Option.some_inj.mp hf).symm
      subst he
      have hkb : (e.key == pfx) = true := by simp [hk]
      have hrest : ∀ x ∈ rest, ¬ x.key = pfx := by
        intro x hx hxk
        have hmem : pfx ∈ rest.map (·.key) := List.mem_map.mpr ⟨x, hx, hxk⟩
        have hnd2 := hnd
        simp only [List.map_cons] at hnd2
        have hni := (List.nodup_cons.mp hnd2).1
        rw [hk] at hni
        exact hni hmem
      unfold reflexpr.setEntries
      rw [hkb, if_pos rfl]
      cases hc : lexical_cast e.ty (strnlen_take v) with
      | ok w =>
        exact setEntries_nomatch rest (opts.set e.idx w) pfx v hrest
      | error err => rfl
    · have hkb : (e₀.key == pfx) = false := by simp [hk]
      have hf2 : rest.find? (fun x => x.key == pfx) = some e := by
        rwa [List.find?_cons_of_neg _ (by simp [hk])] at hf
      have hnd2 : (rest.map (·.key)).Nodup := by
        simp only [List.map_cons] at hnd
        exact (List.nodup_cons.mp hnd).2
      unfold reflexpr.setEntries
      rw [hkb, if_neg (by simp)]
      exact setEntries_found rest opts pfx v e hnd2 hf2

/-- With a resolved prefix, `set` performs exactly one assignment at the
resolved entry, or propagates the lexical-cast exception. -/
theorem set_found (s : StructDecl) (opts : List Value) (pfx v : String) (e : RegEntry)
    (hf : findEntry s pfx = some e) :
    reflexpr.set s opts pfx v =
      (match lexical_cast e.ty (strnlen_take v) with
       | .ok w => .ok (opts.set e.idx w)
       | .error err => .error err) :=
  setEntries_found (reflexpr.prefix_map s) opts pfx v e (prefix_map_nodup s) hf

end reflopt

namespace reflopt

theorem applyGood_cons (s : StructDecl) (c : List Value) (p : String × String)
    (ps : List (String × String)) :
    applyGood s c (p :: ps) = applyGood s (applyOne s c p) ps := rfl

theorem applyGood_concat (s : StructDecl) (c : List Value) (p : String × String)
    (ps : List (String × String)) :
    applyGood s c (ps ++ [p]) = applyOne s (applyGood s c ps) p := by
  unfold applyGood
  rw [List.foldl_append]
  rfl

theorem applyOne_none {s : StructDecl} {c : List Value} {p : String × String}
    (hfe : findEntry s p.1 = none) : applyOne s c p = c := by
  unfold applyOne
  rw [hfe]

theorem applyOne_ok {s : StructDecl} {c : List Value} {p : String × String}
    {e : RegEntry} {w : Value} (hfe : findEntry s p.1 = some e)
    (hc : lexical_cast e.ty (strnlen_take p.2) = .ok w) :
    applyOne s c p = c.set e.idx w := by
  unfold applyOne
  rw [hfe]
  show (match lexical_cast e.ty (strnlen_take p.2) with
        | .ok w => c.set e.idx w
        | .error _ => c) = _
  rw [hc]

theorem applyOne_err {s : StructDecl} {c : List Value} {p : String × String}
    {e : RegEntry} {err : LexErr} (hfe : findEntry s p.1 = some e)
    (hc : lexical_cast e.ty (strnlen_take p.2) = .error err) :
    applyOne s c p = c := by
  unfold applyOne
  rw [hfe]
  show (match lexical_cast e.ty (strnlen_take p.2) with
        | .ok w => c.set e.idx w
        | .error _ => c) = _
  rw [hc]

theorem applyOne_length (s : StructDecl) (c : List Value) (p : String × String) :
    (applyOne s c p).length = c.length := by
  rcases hfe : findEntry s p.1 with _ | e
  · rw [applyOne_none hfe]
  · cases hc : lexical_cast e.ty (strnlen_take p.2) with
    | ok w => rw [applyOne_ok hfe hc, List.length_set]
    | error err => rw [applyOne_err hfe hc]

theorem applyGood_length (s : StructDecl) : ∀ (pairs : List (String × String)) (c : List Value),
    (applyGood s c pairs).length = c.length
  | [], _ => rfl
  | p :: ps, c =>
    (applyGood_length s ps (applyOne s c p)).trans (applyOne_length s c p)

/-- Unpack a good pair into its resolved entry and coerced value. -/
theorem goodPair_elim {s : StructDecl} {p : String × String} (h : goodPair s p = true) :
    ∃ e w, findEntry s p.1 = some e ∧ lexical_cast e.ty (strnlen_take p.2) = .ok w := by
  unfold goodPair at h
  rcases hfe : findEntry s p.1 with _ | e
  · rw [hfe] at h
    simp at h
  · rw [hfe] at h
    replace h : isOkE (lexical_cast e.ty (strnlen_take p.2)) = true := h
    cases hc : lexical_cast e.ty (strnlen_take p.2) with
    | ok w => exact ⟨e, w, rfl, hc⟩
    | error err =>
      rw [hc] at h
      simp [isOkE] at h

/-- Walking a block of good pairs performs exactly their sequential
assignments and then continues with the remaining tokens. -/
theorem parseLoop_flatPairs (s : StructDecl) :
    ∀ (pairs : List (String × String)) (opts : List Value) (rest : List String),
    (∀ p ∈ pairs, goodPair s p = true) →
    reflexpr.parseLoop s opts (flatPairs pairs ++ rest) =
      reflexpr.parseLoop s (applyGood s opts pairs) rest
  | [], _, _, _ => rfl
  | p :: ps, opts, rest, h => by
    rcases goodPair_elim (h p (List.mem_cons_self p ps)) with ⟨e, w, hfe, hc⟩
    have hcontains : reflexpr.contains s p.1 = true := by
      rw [contains_eq_findEntry, hfe]
      rfl
    have hset : reflexpr.set s opts p.1 p.2 = .ok (opts.set e.idx w) := by
      rw [set_found s opts p.1 p.2 e hfe]
      show (match lexical_cast e.ty (strnlen_take p.2) with
            | .ok w => Except.ok (opts.set e.idx w)
            | .error err => Except.error err) = _
      rw [hc]
    show reflexpr.parseLoop s opts (p.1 :: p.2 :: (flatPairs ps ++ rest)) = _
    rw [show reflexpr.parseLoop s opts (p.1 :: p.2 :: (flatPairs ps ++ rest))
        = (if reflexpr.contains s p.1 then
            match reflexpr.set s opts p.1 p.2 with
            | .ok opts2 => reflexpr.parseLoop s opts2 (flatPairs ps ++ rest)
            | .error err => ParseResult.thrown err
          else ParseResult.unknownFlag) from rfl]
    rw [hcontains, if_pos rfl, hset]
    rw [applyGood_cons, applyOne_ok hfe hc]
    exact parseLoop_flatPairs s ps (opts.set e.idx w) rest
      (fun q hq => h q (List.mem_cons_of_mem p hq))

theorem targetsField_true {s : StructDecl} {j : Nat} {p : String × String}
    (h : targetsField s j p = true) :
    ∃ e, findEntry s p.1 = some e ∧ e.idx = j := by
  unfold targetsField at h
  rcases hfe : findEntry s p.1 with _ | e
  · rw [hfe] at h
    simp at h
  · rw [hfe] at h
    replace h : (e.idx == j) = true := h
    exact ⟨e, rfl, by simpa using h⟩

theorem targetsField_false {s : StructDecl} {j : Nat} {p : String × String} {e : RegEntry}
    (hfe : findEntry s p.1 = some e) (h : targetsField s j p = false) : ¬ e.idx = j := by
  unfold targetsField at h
  rw [hfe] at h
  replace h : (e.idx == j) = false := h
  simpa using h

/-- Last-write-wins characterization of the sequential assignments: a
field targeted by some pair ends at the coerced value of the last pair
targeting it; an untargeted field is untouched. -/
theorem applyGood_get (s : StructDecl) (pairs : List (String × String)) :
    ∀ (cfg : List Value) (j : Nat),
    cfg.length = (filtered s).length →
    (∀ p ∈ pairs, goodPair s p = true) → j < (filtered s).length →
    (applyGood s cfg pairs)[j]? =
      (match pairs.reverse.find? (targetsField s j) with
       | some p => some (castVal s p)
       | none => cfg[j]?) := by
  induction pairs using List.reverseRecOn with
  | nil =>
    intro cfg j hlen hgood hj
    rfl
  | append_singleton ps p ih =>
    intro cfg j hlen hgood hj
    have hrev : (ps ++ [p]).reverse = p :: ps.reverse := by simp
    rw [applyGood_concat, hrev]
    have hgood2 : ∀ q ∈ ps, goodPair s q = true :=
      fun q hq => hgood q (List.mem_append_left _ hq)
    have hgp : goodPair s p = true :=
      hgood p (List.mem_append_right _ (by simp))
    rcases goodPair_elim hgp with ⟨e, w, hfe, hc⟩
    have hlen2 : (applyGood s cfg ps).length = (filtered s).length :=
      (applyGood_length s ps cfg).trans hlen
    by_cases ht : targetsField s j p = true
    · rw [List.find?_cons_of_pos _ ht]
      rcases targetsField_true ht with ⟨e2, hfe2, hidx⟩
      have he : e2 = e := by
        rw [hfe] at hfe2
        exact (Option.some_inj.mp hfe2).symm
      subst he
      have hjlt : j < (applyGood s cfg ps).length := by
        rw [hlen2]
        exact hj
      rw [applyOne_ok hfe hc, hidx, List.getElem?_set_eq_of_lt w hjlt]
      have hcv : castVal s p = w := by
        unfold castVal
        rw [hfe]
        show (match lexical_cast e2.ty (strnlen_take p.2) with
              | .ok w => w
              | .error _ => Value.str "") = w
        rw [hc]
      show some w = some (castVal s p)
      rw [hcv]
    · have htf : targetsField s j p = false := by
        cases h2 : targetsField s j p
        · rfl
        · exact absurd h2 ht
      rw [List.find?_cons_of_neg _ (by simp [htf])]
      have hne : ¬ e.idx = j := targetsField_false hfe htf
      rw [applyOne_ok hfe hc, List.getElem?_set_ne hne]
      exact ih cfg j hlen hgood2 hj

/-- When every flag-position token is registered, the argument walk can
end in success, a propagated cast exception, or the out-of-bounds read,
but never in the unrecognized-flag outcome. -/
theorem parseLoop_ne_unknown (s : StructDecl) : ∀ (args : List String) (opts : List Value),
    (∀ i (hi : i < args.length), i % 2 = 0 → reflexpr.contains s (args.get ⟨i, hi⟩) = true) →
    reflexpr.parseLoop s opts args ≠ ParseResult.unknownFlag
  | [], opts, _ => by
    intro hcon
    exact ParseResult.noConfusion hcon
  | [flag], opts, h => by
    have hc : reflexpr.contains s flag = true := h 0 (by simp) (by decide)
    intro hcon
    rw [show reflexpr.parseLoop s opts [flag]
        = (if reflexpr.contains s flag then ParseResult.oobRead else ParseResult.unknownFlag)
        from rfl] at hcon
    rw [hc, if_pos rfl] at hcon
    exact ParseResult.noConfusion hcon
  | flag :: v :: rest, opts, h => by
    have hc : reflexpr.contains s flag = true := h 0 (by simp) (by decide)
    intro hcon
    rw [show reflexpr.parseLoop s opts (flag :: v :: rest)
        = (if reflexpr.contains s flag then
            match reflexpr.set s opts flag v with
            | .ok opts2 => reflexpr.parseLoop s opts2 rest
            | .error err => ParseResult.thrown err
          else ParseResult.unknownFlag) from rfl] at hcon
    rw [hc, if_pos rfl] at hcon
    cases hset : reflexpr.set s opts flag v with
    | ok opts2 =>
      rw [hset] at hcon
      have hrec := parseLoop_ne_unknown s rest opts2 (fun i hi he => by
        have h2 : reflexpr.contains s (rest.get ⟨i, hi⟩) = true :=
          h (i + 2) (by simp only [List.length_cons]; omega) (by omega)
        exact h2)
      exact hrec hcon
    | error err =>
      rw [hset] at hcon
      exact ParseResult.noConfusion hcon

end reflopt

namespace reflopt

/-! Equivalence of the reflexpr and cpp3k implementations. -/

theorem insertPM_impl_eq (m : List RegEntry) (k : String) (i : Nat) (t : FieldType) :
    cpp3k.insertPM m k i t = reflexpr.insertPM m k i t := rfl

theorem collect_flags_impl_eq (m : List RegEntry) (i : Nat) (f : OptionField) :
    cpp3k.collect_flags m i f = reflexpr.collect_flags m i f := rfl

theorem collectFrom_impl_eq : ∀ (fields : List OptionField) (i : Nat) (m : List RegEntry),
    cpp3k.collectFrom i fields m = reflexpr.collectFrom i fields m
  | [], _, _ => rfl
  | f :: rest, i, m => by
    rw [show cpp3k.collectFrom i (f :: rest) m
        = cpp3k.collectFrom (i + 1) rest (cpp3k.collect_flags m i f) from rfl]
    rw [collect_flags_impl_eq, collectFrom_impl_eq rest (i + 1) _]
    rfl

theorem prefix_map_impl_eq (s : StructDecl) :
    cpp3k.prefix_map s = reflexpr.prefix_map s := by
  unfold cpp3k.prefix_map reflexpr.prefix_map
  rw [collectFrom_impl_eq]

theorem contains_impl_eq (s : StructDecl) (pfx : String) :
    cpp3k.contains s pfx = reflexpr.contains s pfx := by
  unfold cpp3k.contains reflexpr.contains
  rw [prefix_map_impl_eq]

theorem setEntries_impl_eq : ∀ (l : List RegEntry) (opts : List Value) (pfx v : String),
    cpp3k.setEntries l opts pfx v = reflexpr.setEntries l opts pfx v
  | [], _, _, _ => rfl
  | e :: rest, opts, pfx, v => by
    rw [show cpp3k.setEntries (e :: rest) opts pfx v
        = (if e.key == pfx then
            match lexical_cast e.ty (strnlen_take v) with
            | .ok w => cpp3k.setEntries rest (opts.set e.idx w) pfx v
            | .error err => Except.error err
          else cpp3k.setEntries rest opts pfx v) from rfl]
    rw [show reflexpr.setEntries (e :: rest) opts pfx v
        = (if e.key == pfx then
            match lexical_cast e.ty (strnlen_take v) with
            | .ok w => reflexpr.setEntries rest (opts.set e.idx w) pfx v
            | .error err => Except.error err
          else reflexpr.setEntries rest opts pfx v) from rfl]
    by_cases hk : (e.key == pfx) = true
    · rw [if_pos hk, if_pos hk]
      cases hc : lexical_cast e.ty (strnlen_take v) with
      | ok w => exact setEntries_impl_eq rest (opts.set e.idx w) pfx v
      | error err => rfl
    · rw [if_neg hk, if_neg hk]
      exact setEntries_impl_eq rest opts pfx v

theorem set_impl_eq (s : StructDecl) (opts : List Value) (pfx v : String) :
    cpp3k.set s opts pfx v = reflexpr.set s opts pfx v := by
  unfold cpp3k.set reflexpr.set
  rw [prefix_map_impl_eq, setEntries_impl_eq]

theorem parseLoop_impl_eq (s : StructDecl) : ∀ (args : List String) (opts : List Value),
    cpp3k.parseLoop s opts args = reflexpr.parseLoop s opts args
  | [], _ => rfl
  | [flag], opts => by
    rw [show cpp3k.parseLoop s opts [flag]
        = (if cpp3k.contains s flag then ParseResult.oobRead else ParseResult.unknownFlag)
        from rfl]
    rw [show reflexpr.parseLoop s opts [flag]
        = (if reflexpr.contains s flag then ParseResult.oobRead else ParseResult.unknownFlag)
        from rfl]
    rw [contains_impl_eq]
  | flag :: v :: rest, opts => by
    rw [show cpp3k.parseLoop s opts (flag :: v :: rest)
        = (if cpp3k.contains s flag then
            match cpp3k.set s opts flag v with
            | .ok opts2 => cpp3k.parseLoop s opts2 rest
            | .error err => ParseResult.thrown err
          else ParseResult.unknownFlag) from rfl]
    rw [show reflexpr.parseLoop s opts (flag :: v :: rest)
        = (if reflexpr.contains s flag then
            match reflexpr.set s opts flag v with
            | .ok opts2 => reflexpr.parseLoop s opts2 rest
            | .error err => ParseResult.thrown err
          else ParseResult.unknownFlag) from rfl]
    rw [contains_impl_eq, set_impl_eq]
    by_cases hcon : reflexpr.contains s flag = true
    · rw [if_pos hcon, if_pos hcon]
      cases hset : reflexpr.set s opts flag v with
      | ok opts2 => exact parseLoop_impl_eq s rest opts2
      | error err => rfl
    · rw [if_neg hcon, if_neg hcon]

end reflopt

namespace reflopt

theorem strnlen_take_idem (v : String) : strnlen_take (strnlen_take v) = strnlen_take v := by
  unfold strnlen_take
  rw [show (String.mk (v.data.take max_value_length)).data
      = v.data.take max_value_length from rfl]
  rw [List.take_take, Nat.min_self]

theorem setEntries_truncate : ∀ (l : List RegEntry) (opts : List Value) (pfx v : String),
    reflexpr.setEntries l opts pfx (strnlen_take v) = reflexpr.setEntries l opts pfx v
  | [], _, _, _ => rfl
  | e :: rest, opts, pfx, v => by
    rw [show reflexpr.setEntries (e :: rest) opts pfx (strnlen_take v)
        = (if e.key == pfx then
            match lexical_cast e.ty (strnlen_take (strnlen_take v)) with
            | .ok w => reflexpr.setEntries rest (opts.set e.idx w) pfx (strnlen_take v)
            | .error err => Except.error err
          else reflexpr.setEntries rest opts pfx (strnlen_take v)) from rfl]
    rw [show reflexpr.setEntries (e :: rest) opts pfx v
        = (if e.key == pfx then
            match lexical_cast e.ty (strnlen_take v) with
            | .ok w => reflexpr.setEntries rest (opts.set e.idx w) pfx v
            | .error err => Except.error err
          else reflexpr.setEntries rest opts pfx v) from rfl]
    rw [strnlen_take_idem]
    by_cases hk : (e.key == pfx) = true
    · rw [if_pos hk, if_pos hk]
      cases hc : lexical_cast e.ty (strnlen_take v) with
      | ok w => exact setEntries_truncate rest (opts.set e.idx w) pfx v
      | error err => rfl
    · rw [if_neg hk, if_neg hk]
      exact setEntries_truncate rest opts pfx v

theorem set_truncate (s : StructDecl) (opts : List Value) (pfx v : String) :
    reflexpr.set s opts pfx v = reflexpr.set s opts pfx (strnlen_take v) := by
  unfold reflexpr.set
  exact (setEntries_truncate (reflexpr.prefix_map s) opts pfx v).symm

theorem parseLoop_truncate (s : StructDecl) (opts : List Value) (pfx v : String)
    (rest : List String) :
    reflexpr.parseLoop s opts (pfx :: v :: rest)
      = reflexpr.parseLoop s opts (pfx :: strnlen_take v :: rest) := by
  rw [show reflexpr.parseLoop s opts (pfx :: v :: rest)
      = (if reflexpr.contains s pfx then
          match reflexpr.set s opts pfx v with
          | .ok opts2 => reflexpr.parseLoop s opts2 rest
          | .error err => ParseResult.thrown err
        else ParseResult.unknownFlag) from rfl]
  rw [show reflexpr.parseLoop s opts (pfx :: strnlen_take v :: rest)
      = (if reflexpr.contains s pfx then
          match reflexpr.set s opts pfx (strnlen_take v) with
          | .ok opts2 => reflexpr.parseLoop s opts2 rest
          | .error err => ParseResult.thrown err
        else ParseResult.unknownFlag) from rfl]
  rw [set_truncate]

end reflopt

namespace reflopt

/-! Claim theorems. -/

/-- Claim C1 (code bug): the loop has no odd-length handling at all.  A
trailing registered flag makes the source read `argv[argc]`, past the
end of the argument vector, and hand it to `strnlen` (undefined
behaviour) instead of failing with a missing-value error; a trailing
unregistered flag yields plain nullopt.  No MissingValue outcome exists
anywhere in the code. -/
theorem trailing_flag_reads_out_of_bounds :
    reflexpr.parse ProgramOptions ["prog", "--filename"] = some ParseResult.oobRead ∧
    reflexpr.parse ProgramOptions ["prog", "--nope"] = some ParseResult.unknownFlag := by
  decide

/-- Claim C2 counterexample: coercion failures on two different fields
with two different raw values produce the identical outcome, so the
failure carries neither the field name nor the offending raw value. -/
theorem coercion_failure_carries_no_field_name :
    reflexpr.parse TwoInts ["prog", "-a", "xyz"]
      = some (ParseResult.thrown (LexErr.bad_lexical_cast FieldType.int)) ∧
    reflexpr.parse TwoInts ["prog", "-b", "pqr"]
      = reflexpr.parse TwoInts ["prog", "-a", "xyz"] := by
  decide

/-- Claim C2 (amended): a registered flag whose value cannot be coerced
makes `boost::lexical_cast` throw; the exception propagates out of
`parse` — an outcome distinct in kind from the unrecognized-flag nullopt
and from any returned instance — but it carries only the target type of
the failed conversion, not the field name or the raw value. -/
theorem parse_coercion_throws (s : StructDecl) (prog flag v : String)
    (pairs : List (String × String)) (rest : List String) (e : RegEntry) (err : LexErr)
    (hne : filtered s ≠ []) (hgood : ∀ p ∈ pairs, goodPair s p = true)
    (hfe : findEntry s flag = some e)
    (hcast : lexical_cast e.ty (strnlen_take v) = .error err) :
    reflexpr.parse s (prog :: (flatPairs pairs ++ flag :: v :: rest))
      = some (ParseResult.thrown err) ∧
    (∀ cfg, ParseResult.thrown err ≠ ParseResult.ok cfg) ∧
    ParseResult.thrown err ≠ ParseResult.unknownFlag := by
  refine ⟨?_, fun cfg => by simp, by simp⟩
  unfold reflexpr.parse
  rw [if_neg hne, if_neg (prefix_map_ne_nil hne)]
  rw [show (prog :: (flatPairs pairs ++ flag :: v :: rest)).drop 1
      = flatPairs pairs ++ flag :: v :: rest from rfl]
  rw [parseLoop_flatPairs s pairs (defaults s) (flag :: v :: rest) hgood]
  have hcontains : reflexpr.contains s flag = true := by
    rw [contains_eq_findEntry, hfe]
    rfl
  have hset : reflexpr.set s (applyGood s (defaults s) pairs) flag v = .error err := by
    rw [set_found s _ flag v e hfe]
    show (match lexical_cast e.ty (strnlen_take v) with
          | .ok w => Except.ok ((applyGood s (defaults s) pairs).set e.idx w)
          | .error err2 => Except.error err2) = _
    rw [hcast]
  rw [show reflexpr.parseLoop s (applyGood s (defaults s) pairs) (flag :: v :: rest)
      = (if reflexpr.contains s flag then
          match reflexpr.set s (applyGood s (defaults s) pairs) flag v with
          | .ok opts2 => reflexpr.parseLoop s opts2 rest
          | .error err2 => ParseResult.thrown err2
        else ParseResult.unknownFlag) from rfl]
  rw [hcontains, if_pos rfl, hset]

/-- Scenario witness for the amended C2: `["-i", "notanumber"]` throws a
bad lexical cast to int. -/
theorem parse_coercion_throws_witness :
    reflexpr.parse ProgramOptions ["prog", "-i", "notanumber"]
      = some (ParseResult.thrown (LexErr.bad_lexical_cast FieldType.int)) :=
  (parse_coercion_throws ProgramOptions "prog" "-i" "notanumber" [] []
    ⟨"-i", 1, FieldType.int⟩ (LexErr.bad_lexical_cast FieldType.int)
    (by decide) (by decide) (by decide) (by rfl)).1

/-- Claim C3 counterexample: a structure whose two fields declare the
identical flag string builds without any static error, and parsing
writes only the first field — the second declaration is silently
ignored, exactly what the claim says cannot happen. -/
theorem duplicate_flag_builds_and_ignores_second :
    reflexpr.parse DupFlags ["prog", "-x", "7"]
      = some (ParseResult.ok [Value.int 7, Value.int 0]) ∧
    reflexpr.parse DupFlags ["prog"] ≠ none := by
  decide

/-- Claim C3 (amended): registry construction never fails because of a
duplicate flag declaration — any structure with at least one option
field builds — and a flag resolves to its first declaring field, later
declarations of the same flag string being dropped by `hana::insert`. -/
theorem duplicate_flags_no_build_error_first_wins :
    (∀ (s : StructDecl) (argv : List String), filtered s ≠ [] →
      (reflexpr.parse s argv).isSome = true) ∧
    (∀ (s : StructDecl) (k : String), findEntry s k = firstDecl s k) := by
  constructor
  · intro s argv hne
    unfold reflexpr.parse
    rw [if_neg hne, if_neg (prefix_map_ne_nil hne)]
    rfl
  · exact findEntry_eq_firstDecl

/-- Witness for the amended C3 at the duplicate-flag structure. -/
theorem duplicate_flags_witness :
    (reflexpr.parse DupFlags ["prog", "-x", "7"]).isSome = true ∧
    findEntry DupFlags "-x" = firstDecl DupFlags "-x" :=
  ⟨duplicate_flags_no_build_error_first_wins.1 DupFlags ["prog", "-x", "7"] (by decide),
   duplicate_flags_no_build_error_first_wins.2 DupFlags "-x"⟩

/-- Claim C4: for every even-length sequence of flag/value pairs in
which every flag is registered and every value coerces, `parse` succeeds
and returns the instance produced by the sequential assignments; each
field targeted by some pair holds the coerced value of the last pair
targeting it, and every untargeted field keeps its default value. -/
theorem parse_valid_pairs_success (s : StructDecl) (prog : String)
    (pairs : List (String × String)) (hne : filtered s ≠ [])
    (hgood : ∀ p ∈ pairs, goodPair s p = true) :
    reflexpr.parse s (prog :: flatPairs pairs)
      = some (ParseResult.ok (applyGood s (defaults s) pairs)) ∧
    ∀ j, j < (filtered s).length →
      (applyGood s (defaults s) pairs)[j]? =
        (match pairs.reverse.find? (targetsField s j) with
         | some p => some (castVal s p)
         | none => (defaults s)[j]?) := by
  constructor
  · unfold reflexpr.parse
    rw [if_neg hne, if_neg (prefix_map_ne_nil hne)]
    rw [show (prog :: flatPairs pairs).drop 1 = flatPairs pairs from rfl]
    rw [show flatPairs pairs = flatPairs pairs ++ [] from (List.append_nil _).symm]
    rw [parseLoop_flatPairs s pairs (defaults s) [] hgood]
    rfl
  · intro j hj
    exact applyGood_get s pairs (defaults s) j (by simp [defaults]) hgood hj

/-- Scenario witness for C4: `["--filename", "out.txt", "-i", "5"]`
gives `filename = "out.txt"`, `iterations = 5`, `help` left at its
default. -/
theorem parse_valid_pairs_success_witness :
    reflexpr.parse ProgramOptions ["prog", "--filename", "out.txt", "-i", "5"]
      = some (ParseResult.ok [Value.str "out.txt", Value.int 5, Value.bool false]) := by
  have h := (parse_valid_pairs_success ProgramOptions "prog"
    [("--filename", "out.txt"), ("-i", "5")] (by decide) (by decide)).1
  exact h.trans (by decide)

/-- Claim C5: an unregistered token in flag position makes `parse`
return the failure outcome at that token: no instance is produced and
the tokens after the offending one are never examined (the conclusion
holds for every continuation `rest`). -/
theorem parse_unknown_flag_fails_immediately (s : StructDecl) (prog bad : String)
    (pairs : List (String × String)) (rest : List String) (hne : filtered s ≠ [])
    (hgood : ∀ p ∈ pairs, goodPair s p = true)
    (hbad : reflexpr.contains s bad = false) :
    reflexpr.parse s (prog :: (flatPairs pairs ++ bad :: rest))
      = some ParseResult.unknownFlag := by
  unfold reflexpr.parse
  rw [if_neg hne, if_neg (prefix_map_ne_nil hne)]
  rw [show (prog :: (flatPairs pairs ++ bad :: rest)).drop 1
      = flatPairs pairs ++ bad :: rest from rfl]
  rw [parseLoop_flatPairs s pairs (defaults s) (bad :: rest) hgood]
  cases rest with
  | nil =>
    rw [show reflexpr.parseLoop s (applyGood s (defaults s) pairs) [bad]
        = (if reflexpr.contains s bad then ParseResult.oobRead else ParseResult.unknownFlag)
        from rfl]
    rw [hbad, if_neg (by simp)]
  | cons v rest2 =>
    rw [show reflexpr.parseLoop s (applyGood s (defaults s) pairs) (bad :: v :: rest2)
        = (if reflexpr.contains s bad then
            match reflexpr.set s (applyGood s (defaults s) pairs) bad v with
            | .ok opts2 => reflexpr.parseLoop s opts2 rest2
            | .error err => ParseResult.thrown err
          else ParseResult.unknownFlag) from rfl]
    rw [hbad, if_neg (by simp)]

/-- Scenario witness for C5: `["--badflag", "x"]` after a good pair is
rejected with the unrecognized-flag outcome. -/
theorem parse_unknown_flag_witness :
    reflexpr.parse ProgramOptions ["prog", "--filename", "out.txt", "--badflag", "x"]
      = some ParseResult.unknownFlag :=
  parse_unknown_flag_fails_immediately ProgramOptions "prog" "--badflag"
    [("--filename", "out.txt")] ["x"] (by decide) (by decide) (by decide)

/-- Claim C6: a structure declaring zero option fields fails at build
time — the static assert fires, so `parse` can never be called — and
every successfully building registry holds at least one flag entry. -/
theorem zero_options_build_time_failure :
    (∀ (s : StructDecl), filtered s = [] → ∀ argv, reflexpr.parse s argv = none) ∧
    (∀ (s : StructDecl), filtered s ≠ [] → 1 ≤ (reflexpr.prefix_map s).length) := by
  constructor
  · intro s h argv
    unfold reflexpr.parse
    rw [if_pos h]
  · exact prefix_map_len

/-- Witness for C6 at a struct with only a plain member and at the
three-option example struct. -/
theorem zero_options_witness :
    reflexpr.parse NoOptions ["prog", "-x", "1"] = none ∧
    1 ≤ (reflexpr.prefix_map ProgramOptions).length :=
  ⟨zero_options_build_time_failure.1 NoOptions (by decide) ["prog", "-x", "1"],
   zero_options_build_time_failure.2 ProgramOptions (by decide)⟩

/-- Claim C7: the value string handed to the coercion is cut at
`strnlen(value, max_value_length)` characters: `set` and `parse` cannot
distinguish a value from its truncation at the bound, and the scanned
prefix never exceeds `max_value_length`. -/
theorem value_truncated_at_max_length (s : StructDecl) (opts : List Value)
    (prog pfx v : String) (rest : List String) :
    reflexpr.set s opts pfx v = reflexpr.set s opts pfx (strnlen_take v) ∧
    reflexpr.parse s (prog :: pfx :: v :: rest)
      = reflexpr.parse s (prog :: pfx :: strnlen_take v :: rest) ∧
    (strnlen_take v).data.length ≤ max_value_length := by
  refine ⟨set_truncate s opts pfx v, ?_, ?_⟩
  · unfold reflexpr.parse
    by_cases h1 : filtered s = []
    · rw [if_pos h1, if_pos h1]
    · rw [if_neg h1, if_neg h1, if_neg (prefix_map_ne_nil h1), if_neg (prefix_map_ne_nil h1)]
      rw [show (prog :: pfx :: v :: rest).drop 1 = pfx :: v :: rest from rfl]
      rw [show (prog :: pfx :: strnlen_take v :: rest).drop 1
          = pfx :: strnlen_take v :: rest from rfl]
      rw [parseLoop_truncate]
  · rw [show (strnlen_take v).data = v.data.take max_value_length from rfl]
    rw [List.length_take]
    exact Nat.min_le_left _ _

/-- Claim C8: the reflexpr-based and cpp3k-based implementations are
behaviourally equivalent: on every structure declaration and every
argument vector the two `parse` functions return equal outcomes. -/
theorem reflexpr_cpp3k_parse_equal (s : StructDecl) (argv : List String) :
    reflexpr.parse s argv = cpp3k.parse s argv := by
  unfold reflexpr.parse cpp3k.parse
  rw [prefix_map_impl_eq]
  by_cases h1 : filtered s = []
  · rw [if_pos h1, if_pos h1]
  · rw [if_neg h1, if_neg h1]
    by_cases h2 : reflexpr.prefix_map s = []
    · rw [if_pos h2, if_pos h2]
    · rw [if_neg h2, if_neg h2, parseLoop_impl_eq]

/-- Claim C9: tokens in value position are never looked up in the
registry: when every flag-position token is registered, `parse` never
produces the unrecognized-flag outcome, whatever the value-position
tokens look like. -/
theorem value_positions_never_looked_up (s : StructDecl) (prog : String) (args : List String)
    (h : ∀ i (hi : i < args.length), i % 2 = 0 →
      reflexpr.contains s (args.get ⟨i, hi⟩) = true) :
    reflexpr.parse s (prog :: args) ≠ some ParseResult.unknownFlag := by
  unfold reflexpr.parse
  by_cases h1 : filtered s = []
  · rw [if_pos h1]
    simp
  · rw [if_neg h1, if_neg (prefix_map_ne_nil h1)]
    rw [show (prog :: args).drop 1 = args from rfl]
    intro hcon
    exact parseLoop_ne_unknown s args (defaults s) h (Option.some_inj.mp hcon)

/-- Witness for C9: a flag-like unregistered string in value position is
consumed as a value, not rejected. -/
theorem value_positions_witness :
    reflexpr.parse ProgramOptions ["prog", "--filename", "--badflag"]
      ≠ some ParseResult.unknownFlag :=
  value_positions_never_looked_up ProgramOptions "prog" ["--filename", "--badflag"]
    (by decide)

/-- Claim C10: with no argument tokens after the program name the loop
never runs, so both implementations succeed and return the
default-initialized configuration instance. -/
theorem parse_empty_args_gives_defaults (s : StructDecl) (prog : String)
    (hne : filtered s ≠ []) :
    reflexpr.parse s [prog] = some (ParseResult.ok (defaults s)) ∧
    cpp3k.parse s [prog] = some (ParseResult.ok (defaults s)) := by
  constructor
  · unfold reflexpr.parse
    rw [if_neg hne, if_neg (prefix_map_ne_nil hne)]
    rfl
  · unfold cpp3k.parse
    rw [prefix_map_impl_eq, if_neg hne, if_neg (prefix_map_ne_nil hne)]
    rw [parseLoop_impl_eq]
    rfl

/-- Witness for C10 at the example struct. -/
theorem parse_empty_args_witness :
    reflexpr.parse ProgramOptions ["prog"]
      = some (ParseResult.ok [Value.str "", Value.int 0, Value.bool false]) ∧
    cpp3k.parse ProgramOptions ["prog"]
      = some (ParseResult.ok [Value.str "", Value.int 0, Value.bool false]) := by
  have h := parse_empty_args_gives_defaults ProgramOptions "prog" (by decide)
  exact ⟨h.1.trans (by decide), h.2.trans (by decide)⟩

end reflopt
